import Mathlib

/-!
Verification of the card-deck label scheme and board placement/validation
engine of the MRC running-bingo web app.

The definitions below are a shallow embedding of the JavaScript sources:
  * `src/docs/picker.js` — card catalog, seeded label shuffle (`buildCards`),
    board rules, `validateBoard`, `generateBoard` and the interactive board
    operations;
  * the public dashboard script (`src/unnamed/part_002`) — `hashString`,
    `mulberry32`, `shuffleInPlace`, `buildLabelMap`.

Modelling conventions:
  * JS 32-bit integer results (`Math.imul`, `>>> 0`, `^`, `|`, `>>>`) are
    represented by their unsigned 32-bit bit pattern, a `Nat < 2^32`; the
    signed/unsigned distinction is irrelevant because every operation used
    only depends on (and produces) the low 32 bits of the pattern.
  * `Math.floor(rng() * n)` where `rng()` returns `w / 2^32` (mulberry32)
    is `w * n / 2^32` in exact `Nat` arithmetic; the double-precision
    product is exact for every bound `n` that occurs (n ≤ 2^21).
  * `Math.random()` (used only by the board generator) is modelled as an
    arbitrary stream of 53-bit naturals `f : Nat → Nat` with a position
    counter; `Math.floor(rng() * n)` is `(f k % 2^53) * n / 2^53` and
    `rng() < 0.5` is `f k % 2^53 < 2^52`.
  * JS strings are Lean `String`s; a seed string is modelled as its list of
    UTF-16 code units (`List Nat`), which is what `charCodeAt` exposes.
  * JS array mutation becomes `List.set`; `array[i]` on a 25-slot board
    becomes `List.getD i none` (out-of-range reads yield `undefined`/`none`
    in both worlds).
-/

namespace MRC

/-! ### Card catalog (`CARD_DEFS`, picker.js lines 34-77) -/

inductive CardType
  | A | B | C | D | W
deriving DecidableEq, Repr, BEq

structure Card where
  id : String
  type : CardType
  stars : Nat
  /-- `label` is absent (`undefined`) on the raw catalog entries and is
  assigned by `buildCards`; the empty string stands for `undefined`. -/
  label : String := ""
deriving DecidableEq, Repr, BEq

def CARD_DEFS : List Card := [
  ⟨"A01", .A, 1, ""⟩, ⟨"A02", .A, 2, ""⟩, ⟨"A03", .A, 2, ""⟩, ⟨"A04", .A, 1, ""⟩,
  ⟨"A05", .A, 2, ""⟩, ⟨"A06", .A, 1, ""⟩, ⟨"A07", .A, 1, ""⟩, ⟨"A08", .A, 1, ""⟩,
  ⟨"A09", .A, 2, ""⟩, ⟨"A10", .A, 2, ""⟩, ⟨"A11", .A, 2, ""⟩, ⟨"A12", .A, 2, ""⟩,
  ⟨"A13", .A, 2, ""⟩, ⟨"A14", .A, 1, ""⟩,
  ⟨"B01", .B, 1, ""⟩, ⟨"B02", .B, 2, ""⟩, ⟨"B03", .B, 2, ""⟩, ⟨"B04", .B, 2, ""⟩,
  ⟨"B05", .B, 1, ""⟩, ⟨"B06", .B, 2, ""⟩, ⟨"B07", .B, 2, ""⟩, ⟨"B08", .B, 1, ""⟩,
  ⟨"B09", .B, 1, ""⟩, ⟨"B10", .B, 1, ""⟩,
  ⟨"C01", .C, 1, ""⟩, ⟨"C02", .C, 2, ""⟩, ⟨"C03", .C, 1, ""⟩, ⟨"C04", .C, 2, ""⟩,
  ⟨"C05", .C, 1, ""⟩, ⟨"C06", .C, 2, ""⟩, ⟨"C07", .C, 2, ""⟩, ⟨"C08", .C, 1, ""⟩,
  ⟨"C09", .C, 1, ""⟩,
  ⟨"D01", .D, 3, ""⟩, ⟨"D02", .D, 3, ""⟩, ⟨"D03", .D, 3, ""⟩, ⟨"D04", .D, 3, ""⟩,
  ⟨"D05", .D, 3, ""⟩,
  ⟨"W01", .W, 3, ""⟩, ⟨"W02", .W, 3, ""⟩, ⟨"W03", .W, 3, ""⟩, ⟨"W04", .W, 3, ""⟩]

def cardIds : List String := CARD_DEFS.map (fun c => c.id)

/-! ### Seed hash (`hashString`, picker.js 346-353 / part_002 79-86;
the two files contain byte-identical copies, embedded once).
`h ^= str.charCodeAt(i); h = Math.imul(h, 16777619)` on 32-bit patterns,
then `h >>> 0` (identity on the pattern). -/

def hashString (str : List Nat) : Nat :=
  str.foldl (fun h c => ((h ^^^ c) * 16777619) % 4294967296) 2166136261

/-- Modelled from the spec wording of §4.1: "iteratively XOR each
character's code into an accumulator then multiply by the FNV prime,
masked to 32 bits", starting from the FNV offset basis 2166136261. -/
def fnvFoldSpec (str : List Nat) : Nat :=
  str.foldl (fun acc c => ((acc ^^^ c) * 16777619) % 2 ^ 32) 2166136261

/-! ### PRNG (`mulberry32`, picker.js 355-362 / part_002 88-95).
The closure's captured `seed` accumulates by exact double addition and is
only ever consumed modulo 2^32 (all bitwise ops coerce), so the state is
the exact running sum. -/

def mulberryNext (s : Nat) : Nat × Nat :=
  let s' := s + 0x6D2B79F5
  let t0 := s' % 4294967296
  let t1 := ((t0 ^^^ (t0 >>> 15)) * (t0 ||| 1)) % 4294967296
  let t2 := t1 ^^^ ((t1 + ((t1 ^^^ (t1 >>> 7)) * (t1 ||| 61)) % 4294967296) % 4294967296)
  (t2 ^^^ (t2 >>> 14), s')

/-- `Math.floor(rng() * n)` for the mulberry32 `rng`; the 32-bit output
word `w` makes `rng() = w / 2^32`, so the floor is `w * n / 2^32`. -/
def mulPick (s n : Nat) : Nat × Nat :=
  let ws := mulberryNext s
  (ws.1 * n / 4294967296, ws.2)

/-! ### Fisher–Yates shuffle (`shuffle`, picker.js 364-370 /
`shuffleInPlace`, part_002 97-102; identical bodies, embedded once).
Generic in the picking source so that the same code serves the seeded
mulberry32 stream and the `Math.random` stream of the generator. -/

def listSwap {α : Type} (l : List α) (i j : Nat) : List α :=
  match l[i]?, l[j]? with
  | some a, some b => (l.set i b).set j a
  | _, _ => l

def shuffleGo {σ α : Type} (pick : σ → Nat → Nat × σ) :
    Nat → List α → σ → List α × σ
  | 0, l, s => (l, s)
  | i + 1, l, s =>
    let js := pick s (i + 2)
    shuffleGo pick i (listSwap l (i + 1) js.1) js.2

/-- `for (let i = array.length - 1; i > 0; i--) { j = floor(rng()*(i+1)); swap i j }` -/
def shuffle {σ α : Type} (pick : σ → Nat → Nat × σ) (l : List α) (s : σ) :
    List α × σ :=
  shuffleGo pick (l.length - 1) l s

/-! ### Board rules (picker.js 87-104, 388-399, 483-503) -/

inductive Tier
  | beginner | intermediate | advanced
deriving DecidableEq, Repr, BEq

structure Counts where
  A : Nat
  B : Nat
  C : Nat
  D : Nat
  W : Nat
deriving DecidableEq, Repr

def Counts.total (c : Counts) : Nat := c.A + c.B + c.C + c.D + c.W

def Counts.get (c : Counts) : CardType → Nat
  | .A => c.A
  | .B => c.B
  | .C => c.C
  | .D => c.D
  | .W => c.W

def BASE_COUNTS : Counts := ⟨10, 7, 5, 2, 1⟩

def VARIANT_COUNTS_intermediate : Counts := ⟨10, 7, 5, 1, 2⟩

def VARIANT_COUNTS_advanced : Counts := ⟨9, 6, 5, 2, 3⟩

def getRequiredCounts (tier : Tier) (variantW : Bool) : Counts :=
  if !variantW then BASE_COUNTS
  else if tier == .intermediate then VARIANT_COUNTS_intermediate
  else if tier == .advanced then VARIANT_COUNTS_advanced
  else BASE_COUNTS

inductive WModeKind
  | center | centerCorner | centerDiagonal
deriving DecidableEq, Repr, BEq

structure WMode where
  count : Nat
  mode : WModeKind
deriving DecidableEq, Repr

def getWMode (tier : Tier) (variantW : Bool) : WMode :=
  if !variantW || tier == .beginner then ⟨1, .center⟩
  else if tier == .intermediate then ⟨2, .centerCorner⟩
  else ⟨3, .centerDiagonal⟩

def corners : List Nat := [0, 4, 20, 24]

def centerIndex : Nat := 12

def getPlacementIndex (row col : Nat) : Nat := row * 5 + col

def isCorner (idx : Nat) : Bool := corners.contains idx

def getAdjacentIndices (idx : Nat) : List Nat :=
  let row := idx / 5
  let col := idx % 5
  (if row > 0 then [getPlacementIndex (row - 1) col] else []) ++
  (if row < 4 then [getPlacementIndex (row + 1) col] else []) ++
  (if col > 0 then [getPlacementIndex row (col - 1)] else []) ++
  (if col < 4 then [getPlacementIndex row (col + 1)] else [])

/-! ### Board placements and the validator (`validateBoard`, picker.js 672-726).
A placement is the `state.placements` array: 25 slots, each `null` or a card
id.  `state.cardsById` is a JS object mapping ids to the built cards; it is
modelled as `byId : String → Option Card`.  The truthiness test
`id && state.cardsById[id].type === "T"` is `slotIsType` (the app only ever
places ids that are present in `cardsById`, so the lookup never misses
there; a missing id simply fails the test in the model). -/

abbrev Placements := List (Option String)

def slotIsType (byId : String → Option Card) (slot : Option String) (t : CardType) : Bool :=
  match slot with
  | some id =>
    match byId id with
    | some card => card.type == t
    | none => false
  | none => false

/-- Indices of the slots holding a Wild card, in ascending slot order
(`state.placements.map((id, idx) => ...).filter(...)`, picker.js 677-679). -/
def wIndices (byId : String → Option Card) (p : Placements) : List Nat :=
  p.enum.filterMap fun e =>
    if slotIsType byId e.2 .W then some e.1 else none

/-- Is the slot at `idx` a C-type card with a C-type row/col neighbour?
(the loop body of picker.js 710-723). -/
def cAdjViolation (byId : String → Option Card) (p : Placements) (idx : Nat) : Bool :=
  slotIsType byId (p.getD idx none) .C &&
  (getAdjacentIndices idx).any fun adj => slotIsType byId (p.getD adj none) .C

def msgIncomplete : String := "빙고판 25칸이 모두 채워지지 않았습니다."

def msgWCount (n : Nat) : String := "W 카드는 " ++ toString n ++ "장 배치해야 합니다."

def msgCenterNotW : String := "중앙칸은 W 카드가 필수입니다."

def msgWPos : String := "W 카드는 중앙/모서리 위치만 가능합니다."

def msgInterOneCorner : String := "중수 W는 모서리 1곳만 배치해야 합니다."

def msgDiagTwoCorners : String := "고수 W는 모서리 2곳(대각선)을 배치해야 합니다."

def msgDiagPair : String := "고수 W는 대각선 모서리 2곳을 배치해야 합니다."

def msgDCorner : String := "D 카드는 모서리에 배치할 수 없습니다."

def msgCAdj : String := "C 카드는 상하좌우 인접 배치가 불가합니다."

/-- `validateBoard` (picker.js 672-726), parameterised by the wild mode
(`getWMode()`) and the card table.  The eight error-producing steps run in
source order and their pushes are concatenated.  Note the C-adjacency scan
(last step) `break`s after pushing its first violation, so it contributes
at most one message. -/
def validateBoard (wm : WMode) (byId : String → Option Card) (p : Placements) :
    List String :=
  let errs1 := if p.any (fun slot => slot.isNone) then [msgIncomplete] else []
  let wIdx := wIndices byId p
  let errs2 := if wIdx.length != wm.count then [msgWCount wm.count] else []
  let errs3 := if !(wIdx.contains centerIndex) then [msgCenterNotW] else []
  let allowedW := if wm.mode == .center then [centerIndex] else centerIndex :: corners
  let errs4 := (wIdx.filter (fun idx => !(allowedW.contains idx))).map fun _ => msgWPos
  let errs5 :=
    if wm.mode == .centerCorner then
      if (wIdx.filter isCorner).length != 1 then [msgInterOneCorner] else []
    else []
  let errs6 :=
    if wm.mode == .centerDiagonal then
      let cornersPlaced := wIdx.filter isCorner
      if cornersPlaced.length != 2 then [msgDiagTwoCorners]
      else if !((cornersPlaced.contains 0 && cornersPlaced.contains 24) ||
                (cornersPlaced.contains 4 && cornersPlaced.contains 20)) then
        [msgDiagPair]
      else []
    else []
  let errs7 := p.enum.filterMap fun e =>
    if slotIsType byId e.2 .D && isCorner e.1 then some msgDCorner else none
  let errs8 :=
    match (List.range 25).find? (fun idx => cAdjViolation byId p idx) with
    | some _ => [msgCAdj]
    | none => []
  errs1 ++ errs2 ++ errs3 ++ errs4 ++ errs5 ++ errs6 ++ errs7 ++ errs8

/-- The slots that actually violate the C-adjacency rule (used to compare
against the single message the validator emits). -/
def cViolatingSlots (byId : String → Option Card) (p : Placements) : List Nat :=
  (List.range 25).filter (cAdjViolation byId p)

/-- The slots holding a D-type card on a corner. -/
def dCornerSlots (byId : String → Option Card) (p : Placements) : List Nat :=
  p.enum.filterMap fun e =>
    if slotIsType byId e.2 .D && isCorner e.1 then some e.1 else none

/-! ### Label shuffle, dashboard side (`buildLabelMap`, part_002 139-162).
The card deck is a `Map` keyed by code; only the key set matters to
`buildLabelMap`, so the parameter is the list of codes in map-insertion
order.  `code[0]` is `codeHead`; codes whose first character is not one of
A/B/C/D/W are dropped (`if (codesByType[type])`).  JS default `sort()` on
these ASCII code strings is code-unit lexicographic, i.e. `String` `≤`. -/

def typeChars : List Char := ['A', 'B', 'C', 'D', 'W']

def codeHead (c : String) : Option Char := c.data.head?

/-- Code-unit lexicographic "less than" on character lists — the comparison
JS string relational operators (and hence default `sort()` and, for these
ASCII code strings, `localeCompare`) perform. -/
def codeLtb : List Char → List Char → Bool
  | [], [] => false
  | [], _ :: _ => true
  | _ :: _, [] => false
  | a :: as, b :: bs =>
    if a.toNat < b.toNat then true
    else if b.toNat < a.toNat then false
    else codeLtb as bs

def strLeb (a b : String) : Bool := !(codeLtb b.data a.data)

def sortJS (l : List String) : List String :=
  List.insertionSort (fun a b => strLeb a b = true) l

structure LabelMap where
  byId : List (String × String)
  byLabel : List (String × String)
deriving Repr

/-- One iteration of `Object.keys(codesByType).forEach` per type, in the
literal order A,B,C,D,W, threading the shared mulberry32 state and
accumulating the `byId.set` / `byLabel.set` insertions in order. -/
def buildLabelMapGo (deck : List String) :
    List Char → Nat → List (String × String) × List (String × String) × Nat
  | [], s => ([], [], s)
  | t :: ts, s =>
    let codes := sortJS (deck.filter fun c => codeHead c == some t)
    let ls := shuffle mulPick codes s
    let rest := buildLabelMapGo deck ts ls.2
    (codes.zip ls.1 ++ rest.1, ls.1.zip codes ++ rest.2.1, rest.2.2)

def buildLabelMap (seed : List Nat) (deck : List String) : LabelMap :=
  let go := buildLabelMapGo deck typeChars (hashString seed)
  ⟨go.1, go.2.1⟩

/-! ### Label shuffle, picker side (`buildCards`, picker.js 372-386).
`byType[type]` holds references to the copied card objects, sorted by
`localeCompare` on ids (code-unit order for these ASCII ids); `labels`
starts as the sorted ids and is shuffled with the shared rng; then
`card.label = labels[idx]` positionally.  The positional assignment is
rendered as an association-list lookup, which agrees because the per-type
id lists have no duplicates. -/

def typesList : List CardType := [.A, .B, .C, .D, .W]

def sortCardsJS (l : List Card) : List Card :=
  List.insertionSort (fun a b => strLeb a.id b.id = true) l

def buildCardsGo : List CardType → Nat → List (String × String) × Nat
  | [], s => ([], s)
  | t :: ts, s =>
    let group := sortCardsJS (CARD_DEFS.filter fun c => c.type == t)
    let ids := group.map fun c => c.id
    let ls := shuffle mulPick ids s
    let rest := buildCardsGo ts ls.2
    (ids.zip ls.1 ++ rest.1, rest.2)

def buildCards (seed : List Nat) : List Card :=
  let go := buildCardsGo typesList (hashString seed)
  CARD_DEFS.map fun c => { c with label := (go.1.lookup c.id).getD "" }

/-- `state.cardsById = Object.fromEntries(state.cards.map(c => [c.id, c]))`
(picker.js 934); with distinct ids the first `find?` hit is the entry. -/
def cardsByIdOf (cards : List Card) : String → Option Card :=
  fun id => cards.find? fun c => c.id == id

/-! ### The board generator (`generateBoard`, picker.js 804-870).
`Math.random` is an arbitrary 53-bit stream with a position counter. -/

structure Rng where
  f : Nat → Nat
  k : Nat

def TWO53 : Nat := 9007199254740992

def Rng.word (r : Rng) : Nat := r.f r.k % TWO53

def Rng.next (r : Rng) : Rng := ⟨r.f, r.k + 1⟩

/-- `Math.floor(rng() * n)` for the `Math.random` stream. -/
def randPick (r : Rng) (n : Nat) : Nat × Rng := (r.word * n / TWO53, r.next)

/-- `rng() < 0.5` for the `Math.random` stream. -/
def randHalf (r : Rng) : Bool × Rng := (decide (r.word < TWO53 / 2), r.next)

/-- Wild placement stage (picker.js 812-824): center always; one random
corner in `center+corner`; a random diagonal pair in `center+diagonal`;
then the shuffled W cards are written to those positions pairwise
(`if (wCards[idx])` = the `zip` truncation). -/
def wStage (wm : WMode) (wCardsAll : List Card) (board : Placements) (r : Rng) :
    Placements × Rng :=
  let pr :=
    if wm.mode == .centerCorner then
      let jr := randPick r corners.length
      ([centerIndex, corners.getD jr.1 0], jr.2)
    else if wm.mode == .centerDiagonal then
      let br := randHalf r
      (centerIndex :: (if br.1 then [0, 24] else [4, 20]), br.2)
    else ([centerIndex], r)
  let wc := shuffle randPick wCardsAll pr.2
  ((pr.1.zip wc.1).foldl (fun b pc => b.set pc.1 (some pc.2.id)) board, wc.2)

/-- D placement stage (picker.js 826-833): shuffle the D cards, collect the
empty non-corner slots, shuffle them, assign pairwise. -/
def dStage (dCardsAll : List Card) (board : Placements) (r : Rng) :
    Placements × Rng :=
  let dc := shuffle randPick dCardsAll r
  let dTargets0 := board.enum.filterMap fun e =>
    if e.2.isNone && !isCorner e.1 then some e.1 else none
  let dt := shuffle randPick dTargets0 dc.2
  ((dc.1.zip dt.1).foldl (fun b cp => b.set cp.2 (some cp.1.id)) board, dt.2)

/-- One trial of the C placement loop body (picker.js 838-851): for each C
card recompute the empty slots that have no C neighbour; if none remain the
trial fails, otherwise place the card at a random candidate. -/
def cTrialGo (byId : String → Option Card) :
    List Card → Placements → Rng → Option Placements × Rng
  | [], temp, r => (some temp, r)
  | card :: rest, temp, r =>
    let candidates :=
      (temp.enum.filterMap fun e => if e.2.isNone then some e.1 else none).filter
        fun idx => !((getAdjacentIndices idx).any fun adj =>
          slotIsType byId (temp.getD adj none) .C)
    if candidates.length == 0 then (none, r)
    else
      let jr := randPick r candidates.length
      cTrialGo byId rest (temp.set (candidates.getD jr.1 0) (some card.id)) jr.2

/-- The bounded retry loop `for (attempt = 0; attempt < 200; attempt++)`
(picker.js 837-856): each trial restarts from a fresh copy of the board. -/
def cAttempts (byId : String → Option Card) :
    Nat → Placements → List Card → Rng → Option Placements × Rng
  | 0, _, _, r => (none, r)
  | n + 1, board, cCards, r =>
    match cTrialGo byId cCards board r with
    | (some temp, r') => (some temp, r')
    | (none, r') => cAttempts byId n board cCards r'

/-- Fill stage (picker.js 859-864): the still-unplaced selected cards are
shuffled and written into the remaining empty slots pairwise. -/
def fillStage (selected : List Card) (board : Placements) (r : Rng) :
    Placements × Rng :=
  let remaining := selected.filter fun card => !(board.contains (some card.id))
  let emptySlots := board.enum.filterMap fun e =>
    if e.2.isNone then some e.1 else none
  let rem := shuffle randPick remaining r
  ((rem.1.zip emptySlots).foldl (fun b cp => b.set cp.2 (some cp.1.id)) board, rem.2)

/-- `generateBoard` (picker.js 804-870) with the final `Rng` state exposed.
The final safety check calls `validateBoardAgainst`, which (see
`validateBoardAgainstS`) equals running `validateBoard` on the candidate
with the same wild mode and card table. -/
def generateBoardR (selected : List Card) (wm : WMode)
    (byId : String → Option Card) (r : Rng) : Option Placements × Rng :=
  let board0 : Placements := List.replicate 25 none
  let w1 := wStage wm (selected.filter fun c => c.type == .W) board0 r
  let d1 := dStage (selected.filter fun c => c.type == .D) w1.1 w1.2
  let c1 := shuffle randPick (selected.filter fun c => c.type == .C) d1.2
  let a1 := cAttempts byId 200 d1.1 c1.1 c1.2
  match a1.1 with
  | none => (none, a1.2)
  | some boardWithC =>
    let f1 := fillStage selected boardWithC a1.2
    if f1.1.any (fun slot => slot.isNone) then (none, f1.2)
    else if (validateBoard wm byId f1.1).length != 0 then (none, f1.2)
    else (some f1.1, f1.2)

def generateBoard (selected : List Card) (wm : WMode)
    (byId : String → Option Card) (r : Rng) : Option Placements :=
  (generateBoardR selected wm byId r).1

/-! ### Interactive picker state and its board operations
(picker.js 96-104, 413-420, 432-462, 505-563, 872-878, 952-956).
The DOM-only fields (`cards`, message box, refs) are omitted; `selectedIds`
is the JS `Set` as an insertion-ordered duplicate-free list. -/

structure PickerState where
  tier : Tier
  variantW : Bool
  cardsById : String → Option Card
  selectedIds : List String
  placements : Placements
  activeCardId : Option String

/-- `getSelectedCounts` (picker.js 413-420). -/
def getSelectedCounts (s : PickerState) : Counts :=
  s.selectedIds.foldl
    (fun counts id =>
      match s.cardsById id with
      | some card =>
        match card.type with
        | .A => { counts with A := counts.A + 1 }
        | .B => { counts with B := counts.B + 1 }
        | .C => { counts with C := counts.C + 1 }
        | .D => { counts with D := counts.D + 1 }
        | .W => { counts with W := counts.W + 1 }
      | none => counts)
    ⟨0, 0, 0, 0, 0⟩

/-- `canPlaceCardAt` (picker.js 505-540); only the `ok` bit is modelled,
the attached message being pure UI. -/
def canPlaceCardAt (s : PickerState) (cardId : String) (idx : Nat) : Bool :=
  match s.cardsById cardId with
  | none => false
  | some card =>
    if !(s.selectedIds.contains cardId) then false
    else
      let wOk :=
        if card.type == .W then
          let wm := getWMode s.tier s.variantW
          let allowed := if wm.mode == .center then [centerIndex] else centerIndex :: corners
          if !(allowed.contains idx) then false
          else if wm.mode == .centerDiagonal && isCorner idx then
            let existingCorners := s.placements.enum.filterMap fun e =>
              if slotIsType s.cardsById e.2 .W && isCorner e.1 then some e.1 else none
            if existingCorners.length == 1 then
              let target := existingCorners.headD 0
              (target == 0 && idx == 24) || (target == 24 && idx == 0) ||
              (target == 4 && idx == 20) || (target == 20 && idx == 4)
            else true
          else true
        else true
      if !wOk then false
      else if card.type == .D && isCorner idx then false
      else if card.type == .C &&
          ((getAdjacentIndices idx).any fun adj =>
            slotIsType s.cardsById (s.placements.getD adj none) .C) then false
      else true

/-- `placeCardAt` (picker.js 542-556): on a failed check the board is left
untouched; otherwise the card's previous slot (`indexOf`) is cleared first
and the card is written at `idx`. -/
def placeCardAt (s : PickerState) (cardId : String) (idx : Fin 25) : PickerState :=
  if !canPlaceCardAt s cardId idx.val then s
  else
    let cleared :=
      match s.placements.findIdx? (fun slot => slot == some cardId) with
      | some existingIdx => s.placements.set existingIdx none
      | none => s.placements
    { s with placements := cleared.set idx.val (some cardId), activeCardId := none }

/-- `removeCardFromBoard` (picker.js 459-462). -/
def removeCardFromBoard (s : PickerState) (id : String) : PickerState :=
  match s.placements.findIdx? (fun slot => slot == some id) with
  | some i => { s with placements := s.placements.set i none }
  | none => s

/-- `removeCardAt` (picker.js 558-563). -/
def removeCardAt (s : PickerState) (idx : Fin 25) : PickerState :=
  match s.placements.getD idx.val none with
  | none => s
  | some _ => { s with placements := s.placements.set idx.val none }

/-- `selectCard` (picker.js 432-443): refuses when the per-type quota is
already met, otherwise adds to the selection set. -/
def selectCard (s : PickerState) (id : String) : PickerState :=
  match s.cardsById id with
  | none => s
  | some card =>
    let required := getRequiredCounts s.tier s.variantW
    let counts := getSelectedCounts s
    if counts.get card.type ≥ required.get card.type then s
    else
      { s with selectedIds :=
          if s.selectedIds.contains id then s.selectedIds else s.selectedIds ++ [id] }

/-- `deselectCard` (picker.js 445-451): drops the id from the selection and
removes it from the board. -/
def deselectCard (s : PickerState) (id : String) : PickerState :=
  if !(s.selectedIds.contains id) then s
  else
    let s1 := { s with selectedIds := s.selectedIds.filter (fun x => x != id) }
    let s2 := removeCardFromBoard s1 id
    if s2.activeCardId == some id then { s2 with activeCardId := none } else s2

/-- The "빙고판 초기화" button handler (picker.js 952-956). -/
def clearBoard (s : PickerState) : PickerState :=
  { s with placements := List.replicate 25 none, activeCardId := none }

/-- `validateBoard` reading the live state (picker.js 672 uses
`state.placements` and `getWMode()`). -/
def validateBoardS (s : PickerState) : List String :=
  validateBoard (getWMode s.tier s.variantW) s.cardsById s.placements

/-- `validateBoardAgainst` (picker.js 872-878): temporarily swaps the
candidate into `state.placements`, validates, and restores the previous
array; returns the errors together with the post-call state. -/
def validateBoardAgainstS (s : PickerState) (placements : Placements) :
    List String × PickerState :=
  let previous := s.placements
  let s1 := { s with placements := placements }
  let errors := validateBoardS s1
  let s2 := { s1 with placements := previous }
  (errors, s2)

/-- The interactive board operations reachable from the UI. -/
inductive Op
  | select (id : String)
  | deselect (id : String)
  | place (id : String) (idx : Fin 25)
  | removeAt (idx : Fin 25)
  | clear

def applyOp (s : PickerState) : Op → PickerState
  | .select id => selectCard s id
  | .deselect id => deselectCard s id
  | .place id idx => placeCardAt s id idx
  | .removeAt idx => removeCardAt s idx
  | .clear => clearBoard s

def applyOps (s : PickerState) (ops : List Op) : PickerState :=
  ops.foldl applyOp s

/-- The initial state built by `init()` (picker.js 96-104, 931-934):
beginner tier, variant on, empty selection, 25 empty slots. -/
def initState (byId : String → Option Card) : PickerState :=
  { tier := .beginner
    variantW := true
    cardsById := byId
    selectedIds := []
    placements := List.replicate 25 none
    activeCardId := none }

/-- The board-shape invariant of claim C10: 25 slots and every card id in
at most one of them. -/
def BoardInv (p : Placements) : Prop :=
  p.length = 25 ∧ ∀ id : String, p.count (some id) ≤ 1

/-! ### Concrete instances used by the witness theorems -/

/-- The season seed `"2025W"` as its UTF-16 code units. -/
def seedCodes : List Nat := [50, 48, 50, 53, 87]

def byId0 : String → Option Card := cardsByIdOf CARD_DEFS

/-- A beginner-quota selection (10 A, 7 B, 5 C, 2 D, 1 W). -/
def sel0 : List Card :=
  (CARD_DEFS.take 10) ++ ((CARD_DEFS.drop 14).take 7) ++ ((CARD_DEFS.drop 24).take 5)
  ++ ((CARD_DEFS.drop 33).take 2) ++ ((CARD_DEFS.drop 38).take 1)

/-- A concrete `Math.random` history. -/
def r0 : Rng := ⟨fun k => (k * 2654435761 + 104729) % TWO53, 0⟩

/-- The board `generateBoard sel0 ⟨1, center⟩ byId0 r0` produces. -/
def b0 : Placements :=
  [some "C02", some "A02", some "D02", some "D01", some "C03", some "A03",
   some "C04", some "A04", some "C05", some "A05", some "C01", some "A06",
   some "W01", some "A07", some "A08", some "A09", some "A10", some "B01",
   some "B02", some "B03", some "B04", some "B05", some "B06", some "B07",
   some "A01"]

/-- A full board with two independent C-adjacency clusters, slots 0-1 and
23-24, everything else non-C. -/
def cexBoard : Placements :=
  [some "C01", some "C02", some "A01", some "A02", some "A03", some "A04",
   some "A05", some "A06", some "A07", some "A08", some "A09", some "A10",
   some "A11", some "A12", some "A13", some "A14", some "B01", some "B02",
   some "B03", some "B04", some "B05", some "B06", some "B07", some "C03",
   some "C04"]

/-- Wild cards at the center and at the two top corners 0 and 4 (a
non-diagonal corner pair). -/
def p5 : Placements :=
  [some "W01", none, none, none, some "W02", none, none, none, none, none,
   none, none, some "W03", none, none, none, none, none, none, none,
   none, none, none, none, none]

end MRC

namespace MRC

/-! ## Theorems -/

/-! ### C3 — required counts sum to 25 -/

/-- C3: for every tier in beginner/intermediate/advanced and both values of
the variant flag, the per-type required counts returned by
`getRequiredCounts` sum to exactly 25. -/
theorem requiredCounts_total_25 (tier : Tier) (variantOn : Bool) :
    (getRequiredCounts tier variantOn).total = 25 := by
  cases tier <;> cases variantOn <;> rfl

/-! ### C8 — the seed hash is the 32-bit FNV-1a fold -/

theorem hashString_lt_two_pow_32 (s : List Nat) : hashString s < 2 ^ 32 := by
  have h : ∀ (l : List Nat) (a : Nat), a < 2 ^ 32 →
      l.foldl (fun h c => ((h ^^^ c) * 16777619) % 4294967296) a < 2 ^ 32 := by
    intro l
    induction l with
    | nil => intro a ha; simpa using ha
    | cons x xs ih =>
      intro a ha
      exact ih _ (Nat.mod_lt _ (by norm_num))
  exact h _ _ (by norm_num)

/-- C8: for every seed string, `hashString` equals the FNV-1a-style fold
(start at 2166136261, XOR each code unit, multiply by 16777619 mod 2^32),
lands in `[0, 2^32)`, and the fold is order-sensitive: permuting the
characters can change the result. -/
theorem hashString_is_fnv_fold :
    (∀ s : List Nat, hashString s = fnvFoldSpec s ∧ hashString s < 2 ^ 32) ∧
    ∃ s₁ s₂ : List Nat, s₁.Perm s₂ ∧ hashString s₁ ≠ hashString s₂ := by
  refine ⟨fun s => ⟨rfl, hashString_lt_two_pow_32 s⟩, [97, 98], [98, 97], ?_, by decide⟩
  exact List.Perm.swap 98 97 []

/-! ### C9 — the validator does not mutate the state -/

/-- C9: `validateBoardAgainst` returns the state it was given — it swaps
the candidate placements in, validates, and restores the previous
placements — and its error list is exactly `validateBoard` run on the
candidate with the live wild mode and card table. -/
theorem validateBoardAgainst_preserves_state (s : PickerState) (p : Placements) :
    (validateBoardAgainstS s p).2 = s ∧
    (validateBoardAgainstS s p).1 =
      validateBoard (getWMode s.tier s.variantW) s.cardsById p := by
  exact ⟨rfl, rfl⟩

/-! ### C2 — generated boards pass the validator -/

theorem generateBoardR_some_validates (selected : List Card) (wm : WMode)
    (byId : String → Option Card) (r : Rng) (b : Placements) (r' : Rng)
    (h : generateBoardR selected wm byId r = (some b, r')) :
    validateBoard wm byId b = [] := by
  unfold generateBoardR at h
  dsimp only at h
  split at h
  · simp at h
  · split at h
    · simp at h
    · split at h
      · simp at h
      · rename_i hlen
        obtain ⟨hb, -⟩ := Prod.mk.injEq .. ▸ h
        obtain rfl : _ = b := Option.some.inj hb
        simpa using hlen

/-- C2: whenever `generateBoard` returns a placement rather than failure,
running `validateBoard` on that placement (with the same wild mode and card
table) yields an empty violation list. -/
theorem generateBoard_validates (selected : List Card) (wm : WMode)
    (byId : String → Option Card) (r : Rng) (b : Placements)
    (h : generateBoard selected wm byId r = some b) :
    validateBoard wm byId b = [] :=
  generateBoardR_some_validates selected wm byId r b
    (generateBoardR selected wm byId r).2 (Prod.ext h rfl)

/-- C2 witness: a concrete run of the generator that succeeds, whose output
board the validator accepts. -/
theorem generateBoard_validates_witness :
    validateBoard ⟨1, .center⟩ byId0 b0 = [] :=
  generateBoard_validates sel0 ⟨1, .center⟩ byId0 r0 b0 (by decide)

/-! ### C6 — bounded termination of the generator -/

theorem listSwap_length {α : Type} (l : List α) (i j : Nat) :
    (listSwap l i j).length = l.length := by
  unfold listSwap
  split <;> simp

theorem shuffleGo_length {σ α : Type} (pick : σ → Nat → Nat × σ) :
    ∀ (n : Nat) (l : List α) (s : σ), ((shuffleGo pick n l s).1).length = l.length
  | 0, _, _ => rfl
  | n + 1, l, s => by
    show ((shuffleGo pick n (listSwap l (n + 1) (pick s (n + 2)).1)
      (pick s (n + 2)).2).1).length = l.length
    rw [shuffleGo_length pick n, listSwap_length]

theorem shuffle_length {σ α : Type} (pick : σ → Nat → Nat × σ) (l : List α) (s : σ) :
    ((shuffle pick l s).1).length = l.length :=
  shuffleGo_length pick _ l s

theorem shuffleGo_randPick_k {α : Type} : ∀ (n : Nat) (l : List α) (r : Rng),
    (shuffleGo randPick n l r).2.k = r.k + n
  | 0, _, _ => rfl
  | n + 1, l, r => by
    show (shuffleGo randPick n (listSwap l (n + 1) (randPick r (n + 2)).1)
      (randPick r (n + 2)).2).2.k = _
    rw [shuffleGo_randPick_k n]
    show r.k + 1 + n = r.k + (n + 1)
    omega

theorem shuffle_randPick_k {α : Type} (l : List α) (r : Rng) :
    (shuffle randPick l r).2.k = r.k + (l.length - 1) :=
  shuffleGo_randPick_k (l.length - 1) l r

theorem cTrialGo_k (byId : String → Option Card) :
    ∀ (cc : List Card) (temp : Placements) (r : Rng),
      (cTrialGo byId cc temp r).2.k ≤ r.k + cc.length
  | [], _, _ => Nat.le_add_right _ _
  | card :: rest, temp, r => by
    unfold cTrialGo
    dsimp only
    split
    · exact Nat.le_add_right _ _
    · refine le_trans (cTrialGo_k byId rest _ _) ?_
      simp only [randPick, Rng.next, List.length_cons]
      omega

theorem cAttempts_k (byId : String → Option Card) :
    ∀ (n : Nat) (board : Placements) (cc : List Card) (r : Rng),
      (cAttempts byId n board cc r).2.k ≤ r.k + n * cc.length
  | 0, _, _, _ => Nat.le_add_right _ _
  | n + 1, board, cc, r => by
    unfold cAttempts
    rcases hT : cTrialGo byId cc board r with ⟨res, r'⟩
    have hk : r'.k ≤ r.k + cc.length := by
      have h := cTrialGo_k byId cc board r
      rw [hT] at h
      exact h
    have hmul : (n + 1) * cc.length = n * cc.length + cc.length := by ring
    cases res with
    | some temp =>
      simp only
      omega
    | none =>
      simp only
      have h := cAttempts_k byId n board cc r'
      omega

theorem length_foldl_set {β : Type} (g : Placements → β → Placements)
    (hg : ∀ b x, (g b x).length = b.length) :
    ∀ (l : List β) (b : Placements), (l.foldl g b).length = b.length
  | [], _ => rfl
  | x :: xs, b => by rw [List.foldl_cons, length_foldl_set g hg xs, hg]

theorem wStage_length (wm : WMode) (w : List Card) (board : Placements) (r : Rng) :
    (wStage wm w board r).1.length = board.length := by
  unfold wStage
  exact length_foldl_set _ (fun b x => List.length_set ..) _ _

theorem wStage_k (wm : WMode) (w : List Card) (board : Placements) (r : Rng) :
    (wStage wm w board r).2.k ≤ r.k + 1 + w.length := by
  unfold wStage
  dsimp only
  split
  · rw [shuffle_randPick_k]
    simp only [randPick, Rng.next]
    omega
  · split
    · rw [shuffle_randPick_k]
      simp only [randHalf, Rng.next]
      omega
    · rw [shuffle_randPick_k]
      show r.k + (w.length - 1) ≤ r.k + 1 + w.length
      omega

theorem dStage_k (d : List Card) (board : Placements) (r : Rng) :
    (dStage d board r).2.k ≤ r.k + d.length + board.length := by
  unfold dStage
  dsimp only
  rw [shuffle_randPick_k, shuffle_randPick_k]
  have h1 : (board.enum.filterMap fun e =>
      if e.2.isNone && !isCorner e.1 then some e.1 else none).length ≤ board.length := by
    calc (board.enum.filterMap fun e =>
        if e.2.isNone && !isCorner e.1 then some e.1 else none).length
        ≤ board.enum.length := List.length_filterMap_le _ _
      _ = board.length := List.enum_length
  omega

theorem fillStage_k (selected : List Card) (board : Placements) (r : Rng) :
    (fillStage selected board r).2.k ≤ r.k + selected.length := by
  unfold fillStage
  dsimp only
  rw [shuffle_randPick_k]
  have h := List.length_filter_le (fun card => !(board.contains (some card.id))) selected
  omega

theorem cAttempts_all_fail (byId : String → Option Card) (board : Placements)
    (cc : List Card) :
    ∀ (n : Nat) (r : Rng), (∀ r', (cTrialGo byId cc board r').1 = none) →
      (cAttempts byId n board cc r).1 = none
  | 0, _, _ => rfl
  | n + 1, r, h => by
    unfold cAttempts
    rcases hT : cTrialGo byId cc board r with ⟨res, r'⟩
    have hres := h r
    rw [hT] at hres
    cases res with
    | some temp => exact absurd hres (by simp)
    | none => exact cAttempts_all_fail byId board cc n r' h

theorem generateBoardR_some_complete (selected : List Card) (wm : WMode)
    (byId : String → Option Card) (r : Rng) (b : Placements) (r' : Rng)
    (h : generateBoardR selected wm byId r = (some b, r')) :
    b.all (fun s => s.isSome) = true := by
  unfold generateBoardR at h
  dsimp only at h
  split at h
  · simp at h
  · split at h
    · simp at h
    · split at h
      · simp at h
      · rename_i hany hlen
        obtain ⟨hb, -⟩ := Prod.mk.injEq .. ▸ h
        obtain rfl : _ = b := Option.some.inj hb
        simp only [List.any_eq_true] at hany
        push_neg at hany
        rw [List.all_eq_true]
        intro s hs
        have hx := hany s hs
        cases s with
        | none => exact absurd rfl hx
        | some v => rfl

theorem generateBoardR_k (selected : List Card) (wm : WMode)
    (byId : String → Option Card) (r : Rng) :
    (generateBoardR selected wm byId r).2.k ≤ r.k + 26 + 204 * selected.length := by
  have hW := List.length_filter_le (fun c => c.type == CardType.W) selected
  have hD := List.length_filter_le (fun c => c.type == CardType.D) selected
  have hC := List.length_filter_le (fun c => c.type == CardType.C) selected
  unfold generateBoardR
  dsimp only
  have h1 := wStage_k wm (selected.filter fun c => c.type == CardType.W)
    (List.replicate 25 none) r
  have hlen1 : (wStage wm (selected.filter fun c => c.type == CardType.W)
      (List.replicate 25 none) r).1.length = 25 := by
    rw [wStage_length]
    simp
  generalize hw : wStage wm (selected.filter fun c => c.type == CardType.W)
    (List.replicate 25 none) r = w1 at h1 hlen1 ⊢
  have h2 := dStage_k (selected.filter fun c => c.type == CardType.D) w1.1 w1.2
  rw [hlen1] at h2
  generalize hd : dStage (selected.filter fun c => c.type == CardType.D) w1.1 w1.2 = d1
    at h2 ⊢
  have h3 := shuffle_randPick_k (selected.filter fun c => c.type == CardType.C) d1.2
  have hlen3 := shuffle_length randPick (selected.filter fun c => c.type == CardType.C) d1.2
  generalize hc : shuffle randPick (selected.filter fun c => c.type == CardType.C) d1.2 = c1
    at h3 hlen3 ⊢
  have h4 := cAttempts_k byId 200 d1.1 c1.1 c1.2
  rw [hlen3] at h4
  generalize ha : cAttempts byId 200 d1.1 c1.1 c1.2 = a1 at h4 ⊢
  split
  · simp only
    omega
  · rename_i bc hbc
    have h5 := fillStage_k selected bc a1.2
    generalize hf : fillStage selected bc a1.2 = f1 at h5 ⊢
    split
    · simp only
      omega
    · split <;> simp only <;> omega

/-- C6: the generator always terminates within an explicit budget — at most
`26 + 204·|selection|` random draws in total, which covers the C-placement
loop's at most 200 independent trials of at most `|C cards|` draws each;
when every trial fails (an unsatisfiable configuration, e.g. too many
C-type cards) the 200-trial loop yields failure; and a returned board is
never partial: every slot of a returned board is filled. -/
theorem generator_bounded_termination :
    (∀ (selected : List Card) (wm : WMode) (byId : String → Option Card) (r : Rng),
      (generateBoardR selected wm byId r).2.k ≤ r.k + 26 + 204 * selected.length) ∧
    (∀ (byId : String → Option Card) (board : Placements) (cCards : List Card) (r : Rng),
      (∀ r', (cTrialGo byId cCards board r').1 = none) →
      (cAttempts byId 200 board cCards r).1 = none) ∧
    (∀ (selected : List Card) (wm : WMode) (byId : String → Option Card) (r : Rng)
      (b : Placements), generateBoard selected wm byId r = some b →
      b.all (fun s => s.isSome) = true) :=
  ⟨fun selected wm byId r => generateBoardR_k selected wm byId r,
   fun byId board cc r h => cAttempts_all_fail byId board cc 200 r h,
   fun selected wm byId r b h => generateBoardR_some_complete selected wm byId r b
     (generateBoardR selected wm byId r).2 (Prod.ext h rfl)⟩

/-- C6 witness: the budget at a concrete run; a concrete unsatisfiable
configuration (one C card, full board) on which every trial fails and the
200-trial loop reports failure; and the completeness of a returned board. -/
theorem generator_bounded_termination_witness :
    (generateBoardR sel0 ⟨1, .center⟩ byId0 r0).2.k ≤ r0.k + 26 + 204 * sel0.length ∧
    (cAttempts byId0 200 b0 [⟨"C06", .C, 2, ""⟩] r0).1 = none ∧
    b0.all (fun s => s.isSome) = true :=
  ⟨generator_bounded_termination.1 sel0 ⟨1, .center⟩ byId0 r0,
   generator_bounded_termination.2.1 byId0 b0 [⟨"C06", .C, 2, ""⟩] r0 (fun _ => rfl),
   generator_bounded_termination.2.2 sel0 ⟨1, .center⟩ byId0 r0 b0 (by decide)⟩

/-! ### C4 / C5 — what the validator collects, and the wild diagonal rule -/

/-- The validator written out as the concatenation of its eight
error-producing steps (pure unfolding). -/
theorem validateBoard_eq (wm : WMode) (byId : String → Option Card) (p : Placements) :
    validateBoard wm byId p =
      (if p.any (fun slot => slot.isNone) then [msgIncomplete] else []) ++
      (if (wIndices byId p).length != wm.count then [msgWCount wm.count] else []) ++
      (if !((wIndices byId p).contains centerIndex) then [msgCenterNotW] else []) ++
      ((wIndices byId p).filter (fun idx =>
          !((if wm.mode == .center then [centerIndex] else centerIndex :: corners).contains idx))).map
        (fun _ => msgWPos) ++
      (if wm.mode == .centerCorner then
          if ((wIndices byId p).filter isCorner).length != 1 then [msgInterOneCorner] else []
        else []) ++
      (if wm.mode == .centerDiagonal then
          if ((wIndices byId p).filter isCorner).length != 2 then [msgDiagTwoCorners]
          else if !((((wIndices byId p).filter isCorner).contains 0 &&
                     ((wIndices byId p).filter isCorner).contains 24) ||
                    (((wIndices byId p).filter isCorner).contains 4 &&
                     ((wIndices byId p).filter isCorner).contains 20)) then [msgDiagPair]
          else []
        else []) ++
      (p.enum.filterMap fun e =>
          if slotIsType byId e.2 .D && isCorner e.1 then some msgDCorner else none) ++
      (match (List.range 25).find? (fun idx => cAdjViolation byId p idx) with
       | some _ => [msgCAdj]
       | none => []) := rfl

theorem count_ite_singleton (c : Prop) [Decidable c] (m x : String) :
    (if c then [m] else []).count x = if c ∧ m = x then 1 else 0 := by
  split
  · rename_i hc
    rw [List.count_singleton]
    by_cases hmx : m = x
    · simp [hmx, hc]
    · simp [hmx, hc]
  · rename_i hc
    simp [hc]

theorem count_ite_nil (c : Prop) [Decidable c] (L : List String) (x : String) :
    (if c then L else []).count x = if c then L.count x else 0 := by
  split <;> simp

theorem count_ite (c : Prop) [Decidable c] (L1 L2 : List String) (x : String) :
    (if c then L1 else L2).count x = if c then L1.count x else L2.count x := by
  split <;> rfl

theorem count_map_const {β : Type} (l : List β) (m x : String) :
    (l.map (fun _ => m)).count x = if m = x then l.length else 0 := by
  induction l with
  | nil => simp
  | cons y ys ih =>
    simp only [List.map_cons, List.count_cons, ih, List.length_cons]
    by_cases hmx : m = x
    · simp [hmx]
    · simp [hmx]

theorem count_filterMap_ite_const {β : Type} (q : β → Bool) (m x : String)
    (l : List β) :
    (l.filterMap fun e => if q e then some m else none).count x =
      if m = x then l.countP q else 0 := by
  induction l with
  | nil => simp
  | cons y ys ih =>
    by_cases hq : q y
    · simp only [List.filterMap_cons, hq, if_true, List.count_cons, ih, List.countP_cons]
      by_cases hmx : m = x
      · simp [hmx]
      · simp [hmx]
    · simp only [List.filterMap_cons, hq, List.countP_cons]
      simp only [Bool.false_eq_true, if_false]
      simp [ih, hq]

theorem length_filterMap_ite {β γ : Type} (q : β → Bool) (f : β → γ) (l : List β) :
    (l.filterMap fun e => if q e then some (f e) else none).length = l.countP q := by
  induction l with
  | nil => simp
  | cons y ys ih =>
    by_cases hq : q y
    · simp only [List.filterMap_cons, hq, if_true, List.length_cons, ih, List.countP_cons]
    · simp only [List.filterMap_cons, hq, List.countP_cons]
      simp only [Bool.false_eq_true, if_false]
      simp [ih, hq]

theorem msgWCount_head (n : Nat) : (msgWCount n).data.head? = some 'W' := by
  have h : "W 카드는 ".data.head? = some 'W' := rfl
  simp [msgWCount, String.data_append, h]

theorem msgWCount_ne_of_head (n : Nat) {m : String} (hm : m.data.head? ≠ some 'W') :
    msgWCount n ≠ m :=
  fun h => hm (h ▸ msgWCount_head n)

/-- C4 counterexample: on a full board whose C cards sit at slots 0,1 and
23,24 — four violating C slots in two disjoint regions — the validator
collects exactly ONE `AdjacentSameType` message, not one per violating
slot: the scan `break`s at the first offender (picker.js 721). -/
theorem validator_cAdj_single_message_cex :
    (cViolatingSlots byId0 cexBoard).length = 4 ∧
    (validateBoard (getWMode .beginner true) byId0 cexBoard).count msgCAdj = 1 := by
  decide

/-- C4 (amended): the validator runs all five checks and fully collects
the violations of the completeness, wild, and D-corner checks — e.g. one
`ForbiddenCorner` message per violating D slot — but its C-adjacency scan
emits at most one message: exactly one when at least one C slot violates
adjacency, none otherwise. -/
theorem validator_collects_all_checks (wm : WMode) (byId : String → Option Card)
    (p : Placements) :
    (validateBoard wm byId p).count msgIncomplete =
      (if p.any (fun slot => slot.isNone) then 1 else 0) ∧
    (validateBoard wm byId p).count msgDCorner = (dCornerSlots byId p).length ∧
    (validateBoard wm byId p).count msgCAdj =
      (if cViolatingSlots byId p = [] then 0 else 1) := by
  have hW1 : msgWCount wm.count ≠ msgIncomplete := msgWCount_ne_of_head _ (by decide)
  have hW2 : msgWCount wm.count ≠ msgDCorner := msgWCount_ne_of_head _ (by decide)
  have hW3 : msgWCount wm.count ≠ msgCAdj := msgWCount_ne_of_head _ (by decide)
  have hCAdj : ∀ x : String, (match (List.range 25).find? (fun idx => cAdjViolation byId p idx) with
      | some _ => [msgCAdj]
      | none => ([] : List String)).count x =
      if msgCAdj = x then (if cViolatingSlots byId p = [] then 0 else 1) else 0 := by
    intro x
    rcases hf : (List.range 25).find? (fun idx => cAdjViolation byId p idx) with - | a
    · have hnil : cViolatingSlots byId p = [] := by
        rw [List.find?_eq_none] at hf
        unfold cViolatingSlots
        rw [List.filter_eq_nil_iff]
        exact fun a ha => by simpa using hf a ha
      simp [hnil]
    · have hmem : cViolatingSlots byId p ≠ [] := by
        have ha := List.mem_filter.mpr ⟨List.mem_of_find?_eq_some hf, List.find?_some hf⟩
        exact List.ne_nil_of_mem ha
      rw [List.count_singleton]
      by_cases hmx : msgCAdj = x
      · simp [hmx, hmem]
      · simp [hmx, hmem]
  refine ⟨?_, ?_, ?_⟩
  · rw [validateBoard_eq]
    simp only [List.count_append, count_ite_singleton, count_ite_nil, count_map_const,
      count_filterMap_ite_const, hCAdj]
    have e1 : msgCenterNotW ≠ msgIncomplete := by decide
    have e2 : msgWPos ≠ msgIncomplete := by decide
    have e3 : msgInterOneCorner ≠ msgIncomplete := by decide
    have e4 : msgDiagTwoCorners ≠ msgIncomplete := by decide
    have e5 : msgDiagPair ≠ msgIncomplete := by decide
    have e6 : msgDCorner ≠ msgIncomplete := by decide
    have e7 : msgCAdj ≠ msgIncomplete := by decide
    simp [hW1, e1, e2, e3, e4, e5, e6, e7, count_ite_singleton, count_ite, List.count_singleton,
      List.count_nil, beq_iff_eq]
  · rw [validateBoard_eq]
    simp only [List.count_append, count_ite_singleton, count_ite_nil, count_map_const,
      count_filterMap_ite_const, hCAdj]
    have e0 : msgIncomplete ≠ msgDCorner := by decide
    have e1 : msgCenterNotW ≠ msgDCorner := by decide
    have e2 : msgWPos ≠ msgDCorner := by decide
    have e3 : msgInterOneCorner ≠ msgDCorner := by decide
    have e4 : msgDiagTwoCorners ≠ msgDCorner := by decide
    have e5 : msgDiagPair ≠ msgDCorner := by decide
    have e7 : msgCAdj ≠ msgDCorner := by decide
    have hlen : (dCornerSlots byId p).length = p.enum.countP
        (fun e => slotIsType byId e.2 .D && isCorner e.1) :=
      length_filterMap_ite _ _ _
    simp [hW2, e0, e1, e2, e3, e4, e5, e7, hlen, count_ite_singleton, count_ite, List.count_singleton,
      List.count_nil, beq_iff_eq]
  · rw [validateBoard_eq]
    simp only [List.count_append, count_ite_singleton, count_ite_nil, count_map_const,
      count_filterMap_ite_const, hCAdj]
    have e0 : msgIncomplete ≠ msgCAdj := by decide
    have e1 : msgCenterNotW ≠ msgCAdj := by decide
    have e2 : msgWPos ≠ msgCAdj := by decide
    have e3 : msgInterOneCorner ≠ msgCAdj := by decide
    have e4 : msgDiagTwoCorners ≠ msgCAdj := by decide
    have e5 : msgDiagPair ≠ msgCAdj := by decide
    have e6 : msgDCorner ≠ msgCAdj := by decide
    simp [hW3, e0, e1, e2, e3, e4, e5, e6, count_ite_singleton, count_ite, List.count_singleton,
      List.count_nil, beq_iff_eq]

theorem ite_compl {A B : Prop} [Decidable A] [Decidable B] (h : A ↔ ¬B) (x y : Nat) :
    (if A then x else y) = if B then y else x := by
  by_cases hb : B
  · rw [if_pos hb, if_neg (fun ha => (h.mp ha) hb)]
  · rw [if_neg hb, if_pos (h.mpr hb)]

theorem count_cAdj_match (byId : String → Option Card) (p : Placements) (x : String) :
    (match (List.range 25).find? (fun idx => cAdjViolation byId p idx) with
      | some _ => [msgCAdj]
      | none => ([] : List String)).count x =
      if msgCAdj = x then (if cViolatingSlots byId p = [] then 0 else 1) else 0 := by
  rcases hf : (List.range 25).find? (fun idx => cAdjViolation byId p idx) with - | a
  · have hnil : cViolatingSlots byId p = [] := by
      rw [List.find?_eq_none] at hf
      unfold cViolatingSlots
      rw [List.filter_eq_nil_iff]
      exact fun a ha => by simpa using hf a ha
    simp [hnil]
  · have hmem : cViolatingSlots byId p ≠ [] := by
      have ha := List.mem_filter.mpr ⟨List.mem_of_find?_eq_some hf, List.find?_some hf⟩
      exact List.ne_nil_of_mem ha
    rw [List.count_singleton]
    by_cases hmx : msgCAdj = x
    · simp [hmx, hmem]
    · simp [hmx, hmem]

/-- C5: on an advanced-tier (center+diagonal) placement whose Wild cards sit
at the center and at corners 0 and 4 — two corners on the same edge — the
validator reports the diagonal-pairing violation (and so a non-empty list);
and in general, when exactly two corners hold Wilds, no diagonal-pairing
violation is reported iff the two corners are one of the diagonal pairs
{0,24} or {4,20}. -/
theorem advanced_diagonal_wilds (byId : String → Option Card) (p : Placements) :
    (wIndices byId p = [0, 4, 12] →
      msgDiagPair ∈ validateBoard (getWMode .advanced true) byId p ∧
      validateBoard (getWMode .advanced true) byId p ≠ []) ∧
    (∀ c₁ c₂ : Nat, (wIndices byId p).filter isCorner = [c₁, c₂] →
      (msgDiagPair ∉ validateBoard (getWMode .advanced true) byId p ↔
        (c₁ = 0 ∧ c₂ = 24) ∨ (c₁ = 24 ∧ c₂ = 0) ∨
        (c₁ = 4 ∧ c₂ = 20) ∨ (c₁ = 20 ∧ c₂ = 4))) := by
  have hwm : getWMode .advanced true = ⟨3, .centerDiagonal⟩ := rfl
  have key : ∀ c₁ c₂ : Nat, (wIndices byId p).filter isCorner = [c₁, c₂] →
      (validateBoard (getWMode .advanced true) byId p).count msgDiagPair =
        if ((c₁ = 0 ∨ c₂ = 0) ∧ (c₁ = 24 ∨ c₂ = 24)) ∨
           ((c₁ = 4 ∨ c₂ = 4) ∧ (c₁ = 20 ∨ c₂ = 20)) then 0 else 1 := by
    intro c₁ c₂ hf
    rw [hwm, validateBoard_eq]
    simp only [List.count_append, count_cAdj_match]
    rw [hf]
    have hW : msgWCount (3 : Nat) ≠ msgDiagPair := by decide
    have e0 : msgIncomplete ≠ msgDiagPair := by decide
    have e1 : msgCenterNotW ≠ msgDiagPair := by decide
    have e2 : msgWPos ≠ msgDiagPair := by decide
    have e3 : msgInterOneCorner ≠ msgDiagPair := by decide
    have e4 : msgDiagTwoCorners ≠ msgDiagPair := by decide
    have e6 : msgDCorner ≠ msgDiagPair := by decide
    have e7 : msgCAdj ≠ msgDiagPair := by decide
    simp only [count_ite_singleton, count_ite, count_map_const, count_filterMap_ite_const,
      List.count_singleton, List.count_nil, beq_iff_eq, hW, e0, e1, e2, e3, e4, e6, e7]
    simp [List.contains_cons]
    have h : ((¬0 = c₁ ∧ ¬0 = c₂ ∨ ¬24 = c₁ ∧ ¬24 = c₂) ∧
          (¬4 = c₁ ∧ ¬4 = c₂ ∨ ¬20 = c₁ ∧ ¬20 = c₂)) ↔
        ¬((c₁ = 0 ∨ c₂ = 0) ∧ (c₁ = 24 ∨ c₂ = 24) ∨
          (c₁ = 4 ∨ c₂ = 4) ∧ (c₁ = 20 ∨ c₂ = 20)) := by
      omega
    exact ite_compl h 1 0
  refine ⟨?_, fun c₁ c₂ hf => ?_⟩
  · intro hw
    have hfc : (wIndices byId p).filter isCorner = [0, 4] := by rw [hw]; rfl
    have hc := key 0 4 hfc
    rw [if_neg (by decide)] at hc
    have hmem : msgDiagPair ∈ validateBoard (getWMode .advanced true) byId p := by
      rw [← List.count_pos_iff, hc]
      omega
    exact ⟨hmem, List.ne_nil_of_mem hmem⟩
  · have hc := key c₁ c₂ hf
    constructor
    · intro hnot
      have hz : (validateBoard (getWMode .advanced true) byId p).count msgDiagPair = 0 :=
        List.count_eq_zero.mpr hnot
      rw [hc] at hz
      by_cases hd : ((c₁ = 0 ∨ c₂ = 0) ∧ (c₁ = 24 ∨ c₂ = 24)) ∨
          ((c₁ = 4 ∨ c₂ = 4) ∧ (c₁ = 20 ∨ c₂ = 20))
      · omega
      · rw [if_neg hd] at hz
        exact absurd hz one_ne_zero
    · intro hp
      apply List.count_eq_zero.mp
      rw [hc, if_pos]
      omega

/-- C5 witness: the concrete advanced-tier board `p5` (Wilds at slots 0, 4
and the center) is rejected with the diagonal-pairing violation, and the
corner pair (0,4) falls outside the accepted diagonal pairs. -/
theorem advanced_diagonal_wilds_witness :
    (msgDiagPair ∈ validateBoard (getWMode .advanced true) byId0 p5 ∧
      validateBoard (getWMode .advanced true) byId0 p5 ≠ []) ∧
    (msgDiagPair ∉ validateBoard (getWMode .advanced true) byId0 p5 ↔
      ((0 : Nat) = 0 ∧ (4 : Nat) = 24) ∨ ((0 : Nat) = 24 ∧ (4 : Nat) = 0) ∨
      ((0 : Nat) = 4 ∧ (4 : Nat) = 20) ∨ ((0 : Nat) = 20 ∧ (4 : Nat) = 4)) :=
  ⟨(advanced_diagonal_wilds byId0 p5).1 (by decide),
   (advanced_diagonal_wilds byId0 p5).2 0 4 (by decide)⟩

/-! ### C10 — every card id occupies at most one slot -/

theorem count_set_eq {α : Type} [BEq α] [LawfulBEq α] (l : List α) (n : Nat) (b x : α)
    (h : n < l.length) :
    (l.set n b).count x + (if l[n] == x then 1 else 0) =
      l.count x + (if b == x then 1 else 0) := by
  rw [List.set_eq_take_cons_drop b h]
  conv_rhs => rw [← List.take_append_drop n l, List.drop_eq_getElem_cons h]
  simp only [List.count_append, List.count_cons]
  by_cases h1 : l[n] == x <;> by_cases h2 : b == x <;> simp [h1, h2] <;> omega

theorem count_set_none_le (p : Placements) (i : Nat) (x : String) :
    (p.set i none).count (some x) ≤ p.count (some x) := by
  by_cases h : i < p.length
  · have hc := count_set_eq p i none (some x) h
    rw [if_neg (show ¬(((none : Option String) == some x) = true) by simp)] at hc
    by_cases h1 : (p[i] == some x) = true
    · rw [if_pos h1] at hc
      omega
    · rw [if_neg h1] at hc
      omega
  · rw [List.set_eq_of_length_le (Nat.le_of_not_lt h)]

theorem findIdx?_lt {α : Type} {q : α → Bool} {l : List α} {i : Nat}
    (h : l.findIdx? q = some i) : i < l.length := by
  rw [List.findIdx?_eq_some_iff_findIdx_eq] at h
  exact h.1

theorem findIdx?_found {α : Type} {q : α → Bool} {l : List α} {i : Nat}
    (h : l.findIdx? q = some i) (hlt : i < l.length) : q l[i] = true := by
  rw [List.findIdx?_eq_some_iff_findIdx_eq] at h
  obtain ⟨hlt', hidx⟩ := h
  subst hidx
  exact List.findIdx_getElem

theorem boardInv_set_some (p : Placements) (cid : String) (idx : Nat)
    (hidx : idx < p.length) (hzero : p.count (some cid) = 0)
    (hcnt : ∀ x, p.count (some x) ≤ 1) :
    (p.set idx (some cid)).count (some cid) = 1 ∧
      ∀ x, (p.set idx (some cid)).count (some x) ≤ 1 := by
  have hget : ¬(p[idx] = some cid) := by
    intro hx
    have hmem : some cid ∈ p := hx ▸ List.getElem_mem hidx
    rw [← List.count_pos_iff] at hmem
    omega
  have h1 : (p.set idx (some cid)).count (some cid) = 1 := by
    have hc := count_set_eq p idx (some cid) (some cid) hidx
    rw [if_neg (show ¬((p[idx] == some cid) = true) by simpa using hget)] at hc
    rw [if_pos (show ((some cid : Option String) == some cid) = true by simp)] at hc
    omega
  refine ⟨h1, fun x => ?_⟩
  by_cases hxc : x = cid
  · subst hxc
    omega
  · have hc := count_set_eq p idx (some cid) (some x) hidx
    rw [if_neg (show ¬(((some cid : Option String) == some x) = true) by
      simp only [beq_iff_eq, Option.some.injEq]
      exact fun hcc => hxc hcc.symm)] at hc
    have hx1 := hcnt x
    by_cases hpi : (p[idx] == some x) = true
    · rw [if_pos hpi] at hc
      omega
    · rw [if_neg hpi] at hc
      omega

theorem boardInv_placeCardAt (s : PickerState) (cid : String) (idx : Fin 25)
    (h : BoardInv s.placements) :
    BoardInv (placeCardAt s cid idx).placements ∧
    (canPlaceCardAt s cid idx.val = true →
      (placeCardAt s cid idx).placements.count (some cid) = 1 ∧
      (placeCardAt s cid idx).placements.getD idx.val none = some cid) := by
  obtain ⟨hlen, hcnt⟩ := h
  unfold placeCardAt
  split
  · rename_i hcan
    exact ⟨⟨hlen, hcnt⟩, fun hc => absurd hc (by simpa using hcan)⟩
  · rename_i hcan
    dsimp only
    -- the cleared board: previous slot of `cid` (if any) emptied
    have key : ∀ cleared : Placements, cleared.length = 25 →
        cleared.count (some cid) = 0 → (∀ x, cleared.count (some x) ≤ 1) →
        BoardInv (cleared.set idx.val (some cid)) ∧
          ((cleared.set idx.val (some cid)).count (some cid) = 1 ∧
           (cleared.set idx.val (some cid)).getD idx.val none = some cid) := by
      intro cleared hl hz hc
      have hidx : idx.val < cleared.length := by
        rw [hl]
        exact idx.isLt
      obtain ⟨h1, h2⟩ := boardInv_set_some cleared cid idx.val hidx hz hc
      refine ⟨⟨by simp [hl], h2⟩, h1, ?_⟩
      simp [List.getElem?_set_self hidx]
    split
    · rename_i i hF
      have hlt := findIdx?_lt hF
      have hq := findIdx?_found hF hlt
      have hget : s.placements[i] = some cid := by simpa using hq
      have hz : (s.placements.set i none).count (some cid) = 0 := by
        have hc := count_set_eq s.placements i none (some cid) hlt
        rw [if_pos (show (s.placements[i] == some cid) = true by simp [hget])] at hc
        rw [if_neg (show ¬(((none : Option String) == some cid) = true) by simp)] at hc
        have := hcnt cid
        omega
      have K := key (s.placements.set i none) (by simp [hlen]) hz
        (fun x => le_trans (count_set_none_le ..) (hcnt x))
      exact ⟨K.1, fun _ => K.2⟩
    · rename_i hF
      have hz : s.placements.count (some cid) = 0 := by
        rw [List.count_eq_zero]
        intro hmem
        rw [List.findIdx?_eq_none_iff] at hF
        have hx := hF _ hmem
        simp at hx
      have K := key s.placements hlen hz hcnt
      exact ⟨K.1, fun _ => K.2⟩

theorem boardInv_removeCardFromBoard (s : PickerState) (id : String)
    (h : BoardInv s.placements) : BoardInv (removeCardFromBoard s id).placements := by
  obtain ⟨hlen, hcnt⟩ := h
  unfold removeCardFromBoard
  split
  · rename_i i hF
    exact ⟨by simp [hlen], fun x => le_trans (count_set_none_le ..) (hcnt x)⟩
  · exact ⟨hlen, hcnt⟩

theorem boardInv_applyOp (s : PickerState) (op : Op) (h : BoardInv s.placements) :
    BoardInv (applyOp s op).placements := by
  cases op with
  | select id =>
    show BoardInv (selectCard s id).placements
    unfold selectCard
    split
    · exact h
    · dsimp only
      split
      · exact h
      · exact h
  | deselect id =>
    show BoardInv (deselectCard s id).placements
    unfold deselectCard
    split
    · exact h
    · dsimp only
      have h2 := boardInv_removeCardFromBoard
        { s with selectedIds := s.selectedIds.filter (fun x => x != id) } id h
      split
      · exact h2
      · exact h2
  | place id idx => exact (boardInv_placeCardAt s id idx h).1
  | removeAt idx =>
    show BoardInv (removeCardAt s idx).placements
    obtain ⟨hlen, hcnt⟩ := h
    unfold removeCardAt
    split
    · exact ⟨hlen, hcnt⟩
    · exact ⟨by simp [hlen], fun x => le_trans (count_set_none_le ..) (hcnt x)⟩
  | clear =>
    refine ⟨by rfl, fun x => ?_⟩
    show (List.replicate 25 (none : Option String)).count (some x) ≤ 1
    rw [List.count_eq_zero.mpr]
    · omega
    · intro hmem
      have := List.eq_of_mem_replicate hmem
      simp at this

theorem boardInv_applyOps (ops : List Op) :
    ∀ (s : PickerState), BoardInv s.placements → BoardInv (applyOps s ops).placements := by
  induction ops with
  | nil => exact fun s h => h
  | cons op rest ih => exact fun s h => ih _ (boardInv_applyOp s op h)

/-- C10: starting from the empty board, every sequence of the interactive
board operations (select, deselect, place, remove-at, clear) preserves the
invariant that each card id occupies at most one of the 25 slots; and
placing an already-placed card at a new slot moves it — afterwards the card
sits at the target slot and occupies exactly one slot. -/
theorem board_ops_at_most_one_slot :
    (∀ (byId : String → Option Card) (ops : List Op),
      BoardInv (applyOps (initState byId) ops).placements) ∧
    (∀ (s : PickerState) (cid : String) (idx : Fin 25),
      BoardInv s.placements → canPlaceCardAt s cid idx.val = true →
      (placeCardAt s cid idx).placements.count (some cid) = 1 ∧
      (placeCardAt s cid idx).placements.getD idx.val none = some cid) := by
  constructor
  · intro byId ops
    refine boardInv_applyOps ops (initState byId) ⟨by simp [initState], fun x => ?_⟩
    show (List.replicate 25 (none : Option String)).count (some x) ≤ 1
    rw [List.count_eq_zero.mpr]
    · omega
    · intro hmem
      have := List.eq_of_mem_replicate hmem
      simp at this
  · intro s cid idx h hcan
    exact (boardInv_placeCardAt s cid idx h).2 hcan

/-- C10 witness: select `A01`, place it at slot 3, then place it again at
slot 5 — it moves there and occupies exactly one slot. -/
theorem board_ops_at_most_one_slot_witness :
    BoardInv (applyOps (initState byId0)
      [Op.select "A01", Op.place "A01" ⟨3, by decide⟩]).placements ∧
    ((placeCardAt (applyOps (initState byId0)
        [Op.select "A01", Op.place "A01" ⟨3, by decide⟩]) "A01"
        ⟨5, by decide⟩).placements.count (some "A01") = 1 ∧
     (placeCardAt (applyOps (initState byId0)
        [Op.select "A01", Op.place "A01" ⟨3, by decide⟩]) "A01"
        ⟨5, by decide⟩).placements.getD 5 none = some "A01") :=
  ⟨board_ops_at_most_one_slot.1 byId0 [Op.select "A01", Op.place "A01" ⟨3, by decide⟩],
   board_ops_at_most_one_slot.2
     (applyOps (initState byId0) [Op.select "A01", Op.place "A01" ⟨3, by decide⟩])
     "A01" ⟨5, by decide⟩
     (board_ops_at_most_one_slot.1 byId0 [Op.select "A01", Op.place "A01" ⟨3, by decide⟩])
     (by decide)⟩

/-! ### C1 / C7 — the label shuffle is a per-type bijection, and the two
implementations agree -/

theorem cons_set_perm {α : Type} (b x : α) :
    ∀ (xs : List α) (j : Nat), xs[j]? = some b → (b :: xs.set j x).Perm (x :: xs)
  | [], j, h => by simp at h
  | y :: t, 0, h => by
    obtain rfl : y = b := by simpa using h
    exact List.Perm.swap x y t
  | y :: t, j + 1, h => by
    have h' : t[j]? = some b := by simpa using h
    have ih := cons_set_perm b x t j h'
    show (b :: y :: t.set j x).Perm (x :: y :: t)
    exact (List.Perm.swap y b (t.set j x)).trans ((ih.cons y).trans (List.Perm.swap x y t))

theorem set_set_perm {α : Type} :
    ∀ (l : List α) (i j : Nat) (a b : α), l[i]? = some a → l[j]? = some b →
      ((l.set i b).set j a).Perm l
  | [], _, _, _, _, h1, _ => by simp at h1
  | x :: t, 0, 0, a, b, h1, h2 => by
    obtain rfl : x = a := by simpa using h1
    obtain rfl : x = b := by simpa using h2
    exact List.Perm.refl _
  | x :: t, 0, j + 1, a, b, h1, h2 => by
    obtain rfl : x = a := by simpa using h1
    have h2' : t[j]? = some b := by simpa using h2
    show (b :: t.set j x).Perm (x :: t)
    exact cons_set_perm b x t j h2'
  | x :: t, i + 1, 0, a, b, h1, h2 => by
    obtain rfl : x = b := by simpa using h2
    have h1' : t[i]? = some a := by simpa using h1
    show (a :: t.set i x).Perm (x :: t)
    exact cons_set_perm a x t i h1'
  | x :: t, i + 1, j + 1, a, b, h1, h2 => by
    have h1' : t[i]? = some a := by simpa using h1
    have h2' : t[j]? = some b := by simpa using h2
    show (x :: (t.set i b).set j a).Perm (x :: t)
    exact (set_set_perm t i j a b h1' h2').cons x

theorem listSwap_perm {α : Type} (l : List α) (i j : Nat) : (listSwap l i j).Perm l := by
  unfold listSwap
  split
  · rename_i a b h1 h2
    exact set_set_perm l i j a b h1 h2
  · exact List.Perm.refl l

theorem shuffleGo_perm {σ α : Type} (pick : σ → Nat → Nat × σ) :
    ∀ (n : Nat) (l : List α) (s : σ), ((shuffleGo pick n l s).1).Perm l
  | 0, l, _ => List.Perm.refl l
  | n + 1, l, s => by
    show ((shuffleGo pick n (listSwap l (n + 1) (pick s (n + 2)).1)
      (pick s (n + 2)).2).1).Perm l
    exact (shuffleGo_perm pick n _ _).trans (listSwap_perm ..)

theorem shuffle_perm {σ α : Type} (pick : σ → Nat → Nat × σ) (l : List α) (s : σ) :
    ((shuffle pick l s).1).Perm l :=
  shuffleGo_perm pick _ l s

theorem zip_lookup_of_nodup :
    ∀ (codes labels : List String), codes.Nodup → labels.Nodup →
      codes.length = labels.length → ∀ x ∈ codes, ∃ y, y ∈ labels ∧
        (codes.zip labels).lookup x = some y ∧ (labels.zip codes).lookup y = some x
  | [], _, _, _, _, x, hx => absurd hx (List.not_mem_nil x)
  | c :: cs, [], _, _, hlen, x, hx => by simp at hlen
  | c :: cs, d :: ds, hnc, hnd, hlen, x, hx => by
    rcases List.mem_cons.mp hx with rfl | hx'
    · exact ⟨d, List.mem_cons_self d ds, by simp, by simp⟩
    · have hxc : (x == c) = false := by
        simp only [beq_eq_false_iff_ne, ne_eq]
        intro h
        exact (List.nodup_cons.mp hnc).1 (h ▸ hx')
      obtain ⟨y, hyl, h1, h2⟩ := zip_lookup_of_nodup cs ds (List.nodup_cons.mp hnc).2
        (List.nodup_cons.mp hnd).2 (by simpa using hlen) x hx'
      have hyd : (y == d) = false := by
        simp only [beq_eq_false_iff_ne, ne_eq]
        intro h
        exact (List.nodup_cons.mp hnd).1 (h ▸ hyl)
      refine ⟨y, List.mem_cons_of_mem d hyl, ?_, ?_⟩
      · rw [List.zip_cons_cons, List.lookup_cons, hxc]
        exact h1
      · rw [List.zip_cons_cons, List.lookup_cons, hyd]
        exact h2

theorem lookup_zip_none {x : String} {codes labels : List String} (hx : x ∉ codes) :
    (codes.zip labels).lookup x = none := by
  rw [List.lookup_eq_none_iff]
  intro p hp
  have hmem := (List.of_mem_zip hp).1
  simp only [bne_iff_ne, ne_eq]
  exact fun h => hx (h ▸ hmem)

theorem buildLabelMapGo_lookup (deck : List String) (hnd : deck.Nodup) :
    ∀ (ts : List Char) (s : Nat) (x : String) (t : Char),
      codeHead x = some t → t ∈ ts → x ∈ deck →
      ∃ y, ((buildLabelMapGo deck ts s).1).lookup x = some y ∧
        ((buildLabelMapGo deck ts s).2.1).lookup y = some x ∧ codeHead y = some t
  | [], _, _, _, _, ht, _ => absurd ht (List.not_mem_nil _)
  | t₀ :: ts, s, x, t, hx, ht, hxd => by
    have hsub : ∀ c ∈ sortJS (deck.filter fun c => codeHead c == some t₀),
        codeHead c = some t₀ := by
      intro c hc
      have hcf : c ∈ deck.filter (fun c => codeHead c == some t₀) :=
        (List.perm_insertionSort _ _).mem_iff.mp hc
      simpa using (List.mem_filter.mp hcf).2
    have hndc : (sortJS (deck.filter fun c => codeHead c == some t₀)).Nodup :=
      ((List.perm_insertionSort _ _).nodup_iff).mpr (hnd.filter _)
    have hlperm := shuffle_perm mulPick (sortJS (deck.filter fun c => codeHead c == some t₀)) s
    have hndl := hlperm.nodup_iff.mpr hndc
    have hlen := hlperm.length_eq.symm
    have hgo : buildLabelMapGo deck (t₀ :: ts) s =
        ((sortJS (deck.filter fun c => codeHead c == some t₀)).zip
            (shuffle mulPick (sortJS (deck.filter fun c => codeHead c == some t₀)) s).1 ++
          (buildLabelMapGo deck ts
            (shuffle mulPick (sortJS (deck.filter fun c => codeHead c == some t₀)) s).2).1,
         (shuffle mulPick (sortJS (deck.filter fun c => codeHead c == some t₀)) s).1.zip
            (sortJS (deck.filter fun c => codeHead c == some t₀)) ++
          (buildLabelMapGo deck ts
            (shuffle mulPick (sortJS (deck.filter fun c => codeHead c == some t₀)) s).2).2.1,
         (buildLabelMapGo deck ts
            (shuffle mulPick (sortJS (deck.filter fun c => codeHead c == some t₀)) s).2).2.2) :=
      rfl
    rw [hgo]
    by_cases hteq : t = t₀
    · subst hteq
      have hxc : x ∈ sortJS (deck.filter fun c => codeHead c == some t) :=
        (List.perm_insertionSort _ _).mem_iff.mpr
          (List.mem_filter.mpr ⟨hxd, by simp [hx]⟩)
      obtain ⟨y, hyl, h1, h2⟩ := zip_lookup_of_nodup _ _ hndc hndl hlen x hxc
      refine ⟨y, ?_, ?_, hsub y (hlperm.mem_iff.mp hyl)⟩
      · rw [List.lookup_append, h1]
        rfl
      · rw [List.lookup_append, h2]
        rfl
    · have hxnc : x ∉ sortJS (deck.filter fun c => codeHead c == some t₀) := by
        intro hc
        have hh := hsub x hc
        rw [hx] at hh
        exact hteq (Option.some.inj hh)
      have ht' : t ∈ ts := by
        rcases List.mem_cons.mp ht with h | h
        · exact absurd h hteq
        · exact h
      obtain ⟨y, h1, h2, h3⟩ := buildLabelMapGo_lookup deck hnd ts
        (shuffle mulPick (sortJS (deck.filter fun c => codeHead c == some t₀)) s).2 x t hx ht' hxd
      have hynl : y ∉ (shuffle mulPick (sortJS (deck.filter fun c => codeHead c == some t₀)) s).1 := by
        intro hyl
        have hh := hsub y (hlperm.mem_iff.mp hyl)
        rw [h3] at hh
        exact hteq (Option.some.inj hh)
      refine ⟨y, ?_, ?_, h3⟩
      · rw [List.lookup_append, lookup_zip_none hxnc]
        simpa using h1
      · rw [List.lookup_append, lookup_zip_none hynl]
        simpa using h2

/-- C1: for every seed and every duplicate-free catalog whose codes all
start with one of the five type letters, `buildLabelMap` is a bijection
restricted to same-type identities: looking up any catalog identity in the
identity→label direction yields a label whose reverse lookup gives the
identity back, and the label's type letter equals the identity's. -/
theorem buildLabelMap_bijective (seed : List Nat) (deck : List String)
    (hnd : deck.Nodup)
    (hty : ∀ c ∈ deck, ∃ t ∈ typeChars, codeHead c = some t) :
    ∀ x ∈ deck, ∃ y, (buildLabelMap seed deck).byId.lookup x = some y ∧
      (buildLabelMap seed deck).byLabel.lookup y = some x ∧
      codeHead y = codeHead x := by
  intro x hx
  obtain ⟨t, htc, hxt⟩ := hty x hx
  obtain ⟨y, h1, h2, h3⟩ :=
    buildLabelMapGo_lookup deck hnd typeChars (hashString seed) x t hxt htc hx
  exact ⟨y, h1, h2, by rw [h3, hxt]⟩

/-- C1 witness: for the season seed and the real 40-card catalog, the
identity `"A01"` round-trips through the label map within type A. -/
theorem buildLabelMap_bijective_witness :
    ∃ y, (buildLabelMap seedCodes cardIds).byId.lookup "A01" = some y ∧
      (buildLabelMap seedCodes cardIds).byLabel.lookup y = some "A01" ∧
      codeHead y = codeHead "A01" :=
  buildLabelMap_bijective seedCodes cardIds (by decide) (by decide) "A01" (by decide)

theorem char_eq_of_toNat_eq {a b : Char} (h : a.toNat = b.toNat) : a = b :=
  Char.ext (UInt32.toNat.inj h)

theorem codeLtb_self : ∀ l, codeLtb l l = false
  | [] => rfl
  | _ :: as => by simp [codeLtb, codeLtb_self as]

theorem codeLtb_total : ∀ l₁ l₂, codeLtb l₁ l₂ = true ∨ codeLtb l₂ l₁ = true ∨ l₁ = l₂
  | [], [] => Or.inr (Or.inr rfl)
  | [], _ :: _ => Or.inl rfl
  | _ :: _, [] => Or.inr (Or.inl rfl)
  | a :: as, b :: bs => by
    rcases Nat.lt_trichotomy a.toNat b.toNat with h | h | h
    · exact Or.inl (by simp [codeLtb, h])
    · rcases codeLtb_total as bs with h2 | h2 | h2
      · exact Or.inl (by simp [codeLtb, h, h2])
      · exact Or.inr (Or.inl (by simp [codeLtb, h, h2]))
      · obtain rfl : a = b := char_eq_of_toNat_eq h
        exact Or.inr (Or.inr (by rw [h2]))
    · exact Or.inr (Or.inl (by simp [codeLtb, h]))

theorem codeLtb_trans : ∀ l₁ l₂ l₃, codeLtb l₁ l₂ = true → codeLtb l₂ l₃ = true →
    codeLtb l₁ l₃ = true
  | [], l₂, [], _, h2 => by
    cases l₂ <;> simp [codeLtb] at h2
  | [], _, _ :: _, _, _ => rfl
  | _ :: _, [], _, h1, _ => by simp [codeLtb] at h1
  | _ :: _, _ :: _, [], _, h2 => by simp [codeLtb] at h2
  | a :: as, b :: bs, c :: cs, h1, h2 => by
    rcases Nat.lt_trichotomy a.toNat b.toNat with hab | hab | hab
    · rcases Nat.lt_trichotomy b.toNat c.toNat with hbc | hbc | hbc
      · simp [codeLtb, Nat.lt_trans hab hbc]
      · simp [codeLtb, hbc ▸ hab]
      · simp [codeLtb, hbc, Nat.lt_asymm hbc] at h2
    · have h1' : codeLtb as bs = true := by simpa [codeLtb, hab] using h1
      rcases Nat.lt_trichotomy b.toNat c.toNat with hbc | hbc | hbc
      · simp [codeLtb, hab ▸ hbc]
      · have h2' : codeLtb bs cs = true := by simpa [codeLtb, hbc] using h2
        have hac : a.toNat = c.toNat := hab.trans hbc
        simp [codeLtb, hac, codeLtb_trans as bs cs h1' h2']
      · simp [codeLtb, hbc, Nat.lt_asymm hbc] at h2
    · simp [codeLtb, hab, Nat.lt_asymm hab] at h1

theorem codeLtb_asymm (l₁ l₂ : List Char) (h : codeLtb l₁ l₂ = true) :
    codeLtb l₂ l₁ = false := by
  cases hx : codeLtb l₂ l₁
  · rfl
  · have hs := codeLtb_trans l₁ l₂ l₁ h hx
    rw [codeLtb_self] at hs
    exact absurd hs (by simp)

theorem codeLtb_eq_of_not : ∀ l₁ l₂, codeLtb l₁ l₂ = false → codeLtb l₂ l₁ = false → l₁ = l₂
  | [], [], _, _ => rfl
  | [], _ :: _, h1, _ => by simp [codeLtb] at h1
  | _ :: _, [], _, h2 => by simp [codeLtb] at h2
  | a :: as, b :: bs, h1, h2 => by
    rcases Nat.lt_trichotomy a.toNat b.toNat with h | h | h
    · simp [codeLtb, h] at h1
    · obtain rfl : a = b := char_eq_of_toNat_eq h
      have h1' : codeLtb as bs = false := by simpa [codeLtb] using h1
      have h2' : codeLtb bs as = false := by simpa [codeLtb] using h2
      rw [codeLtb_eq_of_not as bs h1' h2']
    · simp [codeLtb, h] at h2

instance : IsTotal String (fun a b => strLeb a b = true) := by
  constructor
  intro a b
  unfold strLeb
  cases hx : codeLtb b.data a.data
  · exact Or.inl rfl
  · exact Or.inr (by rw [codeLtb_asymm b.data a.data hx]; rfl)

instance : IsTrans String (fun a b => strLeb a b = true) := by
  constructor
  intro a b c h1 h2
  have h1' : codeLtb b.data a.data = false := by simpa [strLeb] using h1
  have h2' : codeLtb c.data b.data = false := by simpa [strLeb] using h2
  show strLeb a c = true
  unfold strLeb
  cases hx : codeLtb c.data a.data
  · rfl
  · exfalso
    rcases codeLtb_total c.data b.data with h | h | h
    · exact absurd h (by simp [h2'])
    · have hs := codeLtb_trans b.data c.data a.data h hx
      rw [h1'] at hs
      exact absurd hs (by simp)
    · rw [h] at hx
      rw [h1'] at hx
      exact absurd hx (by simp)

instance : IsAntisymm String (fun a b => strLeb a b = true) := by
  constructor
  intro a b h1 h2
  have h1' : codeLtb b.data a.data = false := by simpa [strLeb] using h1
  have h2' : codeLtb a.data b.data = false := by simpa [strLeb] using h2
  have hd := codeLtb_eq_of_not a.data b.data h2' h1'
  cases a
  cases b
  rw [show (String.mk _).data = _ from rfl] at hd
  exact congrArg String.mk hd

theorem sortJS_eq_of_perm {l₁ l₂ : List String} (h : l₁.Perm l₂) : sortJS l₁ = sortJS l₂ :=
  List.eq_of_perm_of_sorted
    ((List.perm_insertionSort _ _).trans (h.trans (List.perm_insertionSort _ _).symm))
    (List.sorted_insertionSort _ _) (List.sorted_insertionSort _ _)

theorem sortedIdsA : sortJS (cardIds.filter fun c => codeHead c == some 'A') =
    ["A01", "A02", "A03", "A04", "A05", "A06", "A07", "A08", "A09", "A10", "A11", "A12", "A13", "A14"] := by decide

theorem sortedCardsA :
    (sortCardsJS (CARD_DEFS.filter fun c => c.type == CardType.A)).map (fun c => c.id) =
    ["A01", "A02", "A03", "A04", "A05", "A06", "A07", "A08", "A09", "A10", "A11", "A12", "A13", "A14"] := by decide

theorem sortedIdsB : sortJS (cardIds.filter fun c => codeHead c == some 'B') =
    ["B01", "B02", "B03", "B04", "B05", "B06", "B07", "B08", "B09", "B10"] := by decide

theorem sortedCardsB :
    (sortCardsJS (CARD_DEFS.filter fun c => c.type == CardType.B)).map (fun c => c.id) =
    ["B01", "B02", "B03", "B04", "B05", "B06", "B07", "B08", "B09", "B10"] := by decide

theorem sortedIdsC : sortJS (cardIds.filter fun c => codeHead c == some 'C') =
    ["C01", "C02", "C03", "C04", "C05", "C06", "C07", "C08", "C09"] := by decide

theorem sortedCardsC :
    (sortCardsJS (CARD_DEFS.filter fun c => c.type == CardType.C)).map (fun c => c.id) =
    ["C01", "C02", "C03", "C04", "C05", "C06", "C07", "C08", "C09"] := by decide

theorem sortedIdsD : sortJS (cardIds.filter fun c => codeHead c == some 'D') =
    ["D01", "D02", "D03", "D04", "D05"] := by decide

theorem sortedCardsD :
    (sortCardsJS (CARD_DEFS.filter fun c => c.type == CardType.D)).map (fun c => c.id) =
    ["D01", "D02", "D03", "D04", "D05"] := by decide

theorem sortedIdsW : sortJS (cardIds.filter fun c => codeHead c == some 'W') =
    ["W01", "W02", "W03", "W04"] := by decide

theorem sortedCardsW :
    (sortCardsJS (CARD_DEFS.filter fun c => c.type == CardType.W)).map (fun c => c.id) =
    ["W01", "W02", "W03", "W04"] := by decide

/-- With the same mulberry32 state, the dashboard's per-type fold over a
deck that is a permutation of the picker's 40 card ids produces exactly the
picker's association list: the per-type sorted code lists coincide, so the
shared rng is consumed identically. -/
theorem buildGo_byId_eq (deck : List String) (hperm : deck.Perm cardIds) (s : Nat) :
    (buildLabelMapGo deck typeChars s).1 = (buildCardsGo typesList s).1 := by
  have hA : sortJS (deck.filter fun c => codeHead c == some 'A') =
      sortJS (cardIds.filter fun c => codeHead c == some 'A') :=
    sortJS_eq_of_perm (hperm.filter _)
  have hB : sortJS (deck.filter fun c => codeHead c == some 'B') =
      sortJS (cardIds.filter fun c => codeHead c == some 'B') :=
    sortJS_eq_of_perm (hperm.filter _)
  have hC : sortJS (deck.filter fun c => codeHead c == some 'C') =
      sortJS (cardIds.filter fun c => codeHead c == some 'C') :=
    sortJS_eq_of_perm (hperm.filter _)
  have hD : sortJS (deck.filter fun c => codeHead c == some 'D') =
      sortJS (cardIds.filter fun c => codeHead c == some 'D') :=
    sortJS_eq_of_perm (hperm.filter _)
  have hW : sortJS (deck.filter fun c => codeHead c == some 'W') =
      sortJS (cardIds.filter fun c => codeHead c == some 'W') :=
    sortJS_eq_of_perm (hperm.filter _)
  simp only [buildLabelMapGo, buildCardsGo, typeChars, typesList]
  rw [hA, hB, hC, hD, hW, sortedIdsA, sortedIdsB, sortedIdsC, sortedIdsD, sortedIdsW,
    sortedCardsA, sortedCardsB, sortedCardsC, sortedCardsD, sortedCardsW]

theorem map_fst_zip_shuffle (ids : List String) (s : Nat) :
    ((ids.zip (shuffle mulPick ids s).1).map Prod.fst) = ids := by
  apply List.map_fst_zip
  rw [shuffle_length]

theorem buildCardsGo_keys (s : Nat) :
    ((buildCardsGo typesList s).1).map Prod.fst = cardIds := by
  simp only [buildCardsGo, typesList]
  simp only [List.map_append, map_fst_zip_shuffle]
  rw [sortedCardsA, sortedCardsB, sortedCardsC, sortedCardsD, sortedCardsW]
  decide

theorem map_lookup_self :
    ∀ (al : List (String × String)), (al.map Prod.fst).Nodup →
      al.map (fun kv => (kv.1, (al.lookup kv.1).getD "")) = al
  | [], _ => rfl
  | (k, v) :: rest, hnd => by
    rw [List.map_cons] at hnd
    obtain ⟨hk, hnd'⟩ := List.nodup_cons.mp hnd
    simp only [List.map_cons, List.lookup_cons_self, Option.getD_some]
    congr 1
    have hskip : ∀ kv ∈ rest, ((k, v) :: rest).lookup kv.1 = rest.lookup kv.1 := by
      intro kv hkv
      rw [List.lookup_cons]
      have hne : (kv.1 == k) = false := by
        simp only [beq_eq_false_iff_ne, ne_eq]
        intro h
        exact hk (h ▸ List.mem_map.mpr ⟨kv, hkv, rfl⟩)
      rw [hne]
    calc rest.map (fun kv => (kv.1, (((k, v) :: rest).lookup kv.1).getD ""))
        = rest.map (fun kv => (kv.1, (rest.lookup kv.1).getD "")) :=
          List.map_congr_left (fun kv hkv => by rw [hskip kv hkv])
      _ = rest := map_lookup_self rest hnd'

/-- C7: the two label-shuffle implementations are equivalent — for any seed
string and any catalog whose identity set equals the 40 ids of
`CARD_DEFS`, the identity→label association list that `buildLabelMap`
builds is byte-identical to the (id, label) pairs that `buildCards`
assigns. -/
theorem label_maps_equivalent (seed : List Nat) (deck : List String)
    (hperm : deck.Perm cardIds) :
    (buildLabelMap seed deck).byId =
      (buildCards seed).map (fun c => (c.id, c.label)) := by
  have hkeys := buildCardsGo_keys (hashString seed)
  show (buildLabelMapGo deck typeChars (hashString seed)).1 = _
  rw [buildGo_byId_eq deck hperm (hashString seed)]
  show _ = ((CARD_DEFS.map fun c =>
      { c with label := ((buildCardsGo typesList (hashString seed)).1.lookup c.id).getD "" }).map
      fun c => (c.id, c.label))
  generalize hL : (buildCardsGo typesList (hashString seed)).1 = L
  rw [hL] at hkeys
  rw [List.map_map]
  have hstep : CARD_DEFS.map ((fun c => (c.id, c.label)) ∘ (fun c =>
      { c with label := (L.lookup c.id).getD "" })) =
      CARD_DEFS.map (fun c => (c.id, (L.lookup c.id).getD "")) :=
    List.map_congr_left (fun c _ => rfl)
  rw [hstep]
  have hnodup : (L.map Prod.fst).Nodup := by
    rw [hkeys]
    decide
  have hmaps : CARD_DEFS.map (fun c => (c.id, (L.lookup c.id).getD "")) =
      (L.map Prod.fst).map (fun k => (k, (L.lookup k).getD "")) := by
    rw [hkeys]
    show _ = (CARD_DEFS.map fun c => c.id).map _
    rw [List.map_map]
    exact List.map_congr_left (fun c _ => rfl)
  rw [hmaps, List.map_map]
  exact ((List.map_congr_left (fun kv _ => rfl)).trans (map_lookup_self L hnodup)).symm

/-- C7 witness: instantiated at the season seed `"2025W"` and the deck
listed in catalog order. -/
theorem label_maps_equivalent_witness :
    (buildLabelMap seedCodes cardIds).byId =
      (buildCards seedCodes).map (fun c => (c.id, c.label)) :=
  label_maps_equivalent seedCodes cardIds (List.Perm.refl cardIds)

end MRC
